import Mathlib

/-!
# Shallow embedding of the Hub Sync subsystem (SyncManager) of ai-svetlio-pro

This file embeds the file-level push/pull/auto-sync protocol of the
`SyncManager` class and the auto-sync debounce of the `Memory` class.

Directories are modelled as association lists from filename to content
(`FileMap`); `fs.copy` / `fs.writeFile` become `ainsert`, `fs.readFile`
becomes `alookup`, and a missing file read as `''` (as the source does)
becomes `(alookup m f).getD ""`.  External git invocations are modelled by
boolean success flags in an environment record; a `git pull` against a
quiescent remote leaves the hub clone's files unchanged, which is how the
remote is modelled here (the claims under study are single-machine
file-protocol properties).  Timestamps are opaque strings supplied by the
environment (`new Date().toISOString()` becomes `env.now`).
-/

namespace SvetlioSync

/-- A directory's files: association list from filename to byte content
(modelled as `String`).  Lookup takes the first matching key, and `ainsert`
prepends, so the head entry is the current content of the file. -/
abbrev FileMap := List (String × String)

/-- Read a file's content, `none` when absent (`fs.pathExists` false). -/
def alookup : FileMap → String → Option String
  | [], _ => none
  | (k, v) :: rest, key => if k = key then some v else alookup rest key

/-- Write a file (`fs.copy` / `fs.writeFile`): overwrite or create. -/
def ainsert (m : FileMap) (k v : String) : FileMap := (k, v) :: m

/-- Lookup inside an optional directory (`none` = the directory does not
exist on disk). -/
def optLookup : Option FileMap → String → Option String
  | none, _ => none
  | some m, key => alookup m key

/-- The fixed closed set of syncable filenames (`SYNCABLE_FILES` in the
source; identical lists appear in the sync module and in `tools.ts`). -/
def SYNCABLE_FILES : List String :=
  ["STATE.md", "LOG.md", "ARCHITECTURE.md", "TOOLS.md",
   "TODO.md", "DECISIONS.md", "PROBLEMS.md", "MODE.md"]

/-- `ProjectSyncConfig` from the source: one registered project's entry. -/
structure ProjectSyncConfig where
  localPath : String
  hubFolder : String
  lastPush : Option String
  lastPull : Option String
deriving DecidableEq

/-- `HubConfig` from the source; `projects` is the JSON object keyed by
project name, modelled as an association list. -/
structure HubConfig where
  hubRepo : String
  hubLocalPath : String
  autoSync : Bool
  lastHubUpdate : Option String
  projects : List (String × ProjectSyncConfig)
deriving DecidableEq

/-- Lookup of `config.projects[projectName]`. -/
def projLookup : List (String × ProjectSyncConfig) → String → Option ProjectSyncConfig
  | [], _ => none
  | (k, v) :: rest, key => if k = key then some v else projLookup rest key

/-- Overwrite/insert of `config.projects[projectName] = pc`. -/
def projInsert (m : List (String × ProjectSyncConfig)) (k : String)
    (v : ProjectSyncConfig) : List (String × ProjectSyncConfig) := (k, v) :: m

/-- `SyncResult` from the source. -/
structure SyncResult where
  success : Bool
  filesChanged : List String
  message : String
deriving DecidableEq

/-! ## Push (`SyncManager.push` and `SyncManager.pushSilent`) -/

/-- Environment of one `push` invocation: the loaded config, the current
project's name (`path.basename(projectDir)`), whether the hub clone's git
metadata exists, whether the `git add`/`commit`/`push` sequence succeeds
(`gitErr` is the error message when it does not), and the timestamp the
call would write. -/
structure PushEnv where
  config : Option HubConfig
  projectName : String
  hubCloned : Bool
  gitPushOk : Bool
  gitErr : String
  now : String

/-- Accumulator of push's copy phase: current hub-folder contents and the
`changedFiles` list. -/
structure PushAcc where
  hub : FileMap
  changed : List String
deriving DecidableEq

/-- One iteration of push's copy loop (source step 3): if the project's
copy of `f` exists and its content differs from the hub copy's content
(missing hub copy read as `''`), copy project → hub and record `f`. -/
def pushStep (memory : FileMap) (acc : PushAcc) (f : String) : PushAcc :=
  match alookup memory f with
  | none => acc
  | some localContent =>
    let hubContent := (alookup acc.hub f).getD ""
    if localContent = hubContent then acc
    else { hub := ainsert acc.hub f localContent, changed := acc.changed ++ [f] }

/-- Push's copy loop over the syncable filenames. -/
def pushLoop (memory : FileMap) : List String → PushAcc → PushAcc
  | [], acc => acc
  | f :: rest, acc => pushLoop memory rest (pushStep memory acc f)

/-- Observable outcome of a `push` call: the returned `SyncResult`, the hub
folder's files afterwards, the config handed to `saveConfig` (`none` when
`saveConfig` was not called), and whether the `git add`/`commit`/`push`
sequence was entered at all. -/
structure PushOutcome where
  result : SyncResult
  hub : FileMap
  savedConfig : Option HubConfig
  gitCommitAttempted : Bool
deriving DecidableEq

/-- `SyncManager.push`.  The pre-copy `git pull --rebase` has its failure
swallowed by the source and, against a quiescent remote, does not change
the hub folder's files, so it does not appear explicitly.  On a failing
add/commit/push the source's `catch` returns
`{ success: false, filesChanged: [], message: 'Push грешка: ...' }` while
the files copied in step 3 stay in the hub working tree. -/
def push (env : PushEnv) (memory hub : FileMap) : PushOutcome :=
  match env.config with
  | none =>
    { result := ⟨false, [], "Hub не е настроен. Стартирай: svetlio-pro sync init"⟩,
      hub := hub, savedConfig := none, gitCommitAttempted := false }
  | some config =>
    match projLookup config.projects env.projectName with
    | none =>
      { result := ⟨false, [], "Проектът не е регистриран. Стартирай: svetlio-pro sync init"⟩,
        hub := hub, savedConfig := none, gitCommitAttempted := false }
    | some projectConfig =>
      if env.hubCloned = false then
        { result := ⟨false, [], "Hub repo не е клонирано. Стартирай: svetlio-pro sync init"⟩,
          hub := hub, savedConfig := none, gitCommitAttempted := false }
      else
        let res := pushLoop memory SYNCABLE_FILES ⟨hub, []⟩
        if res.changed = [] then
          { result := ⟨true, [], "Няма промени за изпращане."⟩,
            hub := res.hub, savedConfig := none, gitCommitAttempted := false }
        else if env.gitPushOk then
          let pc := { projectConfig with lastPush := some env.now }
          let config' := { config with
            lastHubUpdate := some env.now,
            projects := projInsert config.projects env.projectName pc }
          { result := ⟨true, res.changed, "Push завършен успешно."⟩,
            hub := res.hub, savedConfig := some config', gitCommitAttempted := true }
        else
          { result := ⟨false, [], "Push грешка: " ++ env.gitErr⟩,
            hub := res.hub, savedConfig := none, gitCommitAttempted := true }

/-- `SyncManager.triggerAutoSyncPush` composed with `pushSilent`: the silent
auto-push.  Exits silently unless the config exists, `autoSync` is on and the
project is registered; `pushSilent`'s copy phase is the same loop as `push`'s
(the source duplicates the loop verbatim). -/
structure AutoPushOutcome where
  hub : FileMap
  savedConfig : Option HubConfig
deriving DecidableEq

/-- `SyncManager.triggerAutoSyncPush` (which calls `pushSilent`). -/
def triggerAutoSyncPush (env : PushEnv) (memory hub : FileMap) : AutoPushOutcome :=
  match env.config with
  | none => { hub := hub, savedConfig := none }
  | some config =>
    if config.autoSync = false then { hub := hub, savedConfig := none }
    else
      match projLookup config.projects env.projectName with
      | none => { hub := hub, savedConfig := none }
      | some projectConfig =>
        let res := pushLoop memory SYNCABLE_FILES ⟨hub, []⟩
        if res.changed = [] then { hub := res.hub, savedConfig := none }
        else if env.gitPushOk then
          let pc := { projectConfig with lastPush := some env.now }
          let config' := { config with
            lastHubUpdate := some env.now,
            projects := projInsert config.projects env.projectName pc }
          { hub := res.hub, savedConfig := some config' }
        else
          { hub := res.hub, savedConfig := none }

/-! ## Pull (`SyncManager.pull` and `SyncManager.triggerAutoSyncPull`) -/

/-- Environment of one `pull` invocation.  `gitPullOk` is whether the plain
`git pull` of step 1 succeeds (its failure is fatal for `pull`);
`hubFolderExists` is `fs.pathExists(hubProjectDir)`. -/
structure PullEnv where
  config : Option HubConfig
  projectName : String
  hubCloned : Bool
  gitPullOk : Bool
  gitErr : String
  hubFolderExists : Bool
  now : String

/-- Accumulator of pull's copy loop: the local memory directory's files,
the backup directory (`none` while `fs.ensureDir(backupDir)` has not run,
`some b` once it exists with contents `b`), and `changedFiles`. -/
structure PullAcc where
  memory : FileMap
  backup : Option FileMap
  changed : List String
deriving DecidableEq

/-- One iteration of pull's copy loop (source step 4): for a syncable
filename present in the hub folder, compare contents (missing local copy
read as `''`); on difference, lazily create the backup directory, copy the
pre-overwrite local file into it when it exists, then overwrite local with
hub content and record the filename. -/
def pullStep (hub : FileMap) (acc : PullAcc) (f : String) : PullAcc :=
  match alookup hub f with
  | none => acc
  | some hubContent =>
    let localContent := (alookup acc.memory f).getD ""
    if hubContent = localContent then acc
    else
      let b0 := acc.backup.getD []
      let b1 := match alookup acc.memory f with
        | some lc => ainsert b0 f lc
        | none => b0
      { memory := ainsert acc.memory f hubContent,
        backup := some b1,
        changed := acc.changed ++ [f] }

/-- Pull's copy loop over the syncable filenames. -/
def pullLoop (hub : FileMap) : List String → PullAcc → PullAcc
  | [], acc => acc
  | f :: rest, acc => pullLoop hub rest (pullStep hub acc f)

/-- Observable outcome of a `pull` call: the returned `SyncResult`, the
memory directory's files afterwards, the backup directory left on disk at
the end (`none` = absent: never created, or created and removed), and the
config handed to `saveConfig`. -/
structure PullOutcome where
  result : SyncResult
  memory : FileMap
  backup : Option FileMap
  savedConfig : Option HubConfig
deriving DecidableEq

/-- `SyncManager.pull`.  Config/registration/clone checks come first; a
failing `git pull` is fatal; a missing hub project folder returns success
early with an empty changed list; otherwise the copy loop runs, the config
timestamps are updated and saved, and when nothing changed an existing
backup directory is removed. -/
def pull (env : PullEnv) (memory hub : FileMap) : PullOutcome :=
  match env.config with
  | none =>
    { result := ⟨false, [], "Hub не е настроен. Стартирай: svetlio-pro sync init"⟩,
      memory := memory, backup := none, savedConfig := none }
  | some config =>
    match projLookup config.projects env.projectName with
    | none =>
      { result := ⟨false, [], "Проектът не е регистриран. Стартирай: svetlio-pro sync init"⟩,
        memory := memory, backup := none, savedConfig := none }
    | some projectConfig =>
      if env.hubCloned = false then
        { result := ⟨false, [], "Hub repo не е клонирано. Стартирай: svetlio-pro sync init"⟩,
          memory := memory, backup := none, savedConfig := none }
      else if env.gitPullOk = false then
        { result := ⟨false, [], "Pull грешка: " ++ env.gitErr⟩,
          memory := memory, backup := none, savedConfig := none }
      else if env.hubFolderExists = false then
        { result := ⟨true, [], "Няма данни за този проект в hub (папката е празна)."⟩,
          memory := memory, backup := none, savedConfig := none }
      else
        let res := pullLoop hub SYNCABLE_FILES ⟨memory, none, []⟩
        let pc := { projectConfig with lastPull := some env.now }
        let config' := { config with
          lastHubUpdate := some env.now,
          projects := projInsert config.projects env.projectName pc }
        if res.changed = [] then
          { result := ⟨true, [], "Всичко е актуално, няма промени."⟩,
            memory := res.memory, backup := none, savedConfig := some config' }
        else
          { result := ⟨true, res.changed, "Pull завършен успешно."⟩,
            memory := res.memory, backup := res.backup, savedConfig := some config' }

/-- Outcome of `triggerAutoSyncPull`: the memory directory afterwards and
the config handed to `saveConfig`.  The silent pull writes no backup (the
source has no backup step) and runs no output. -/
structure AutoPullOutcome where
  memory : FileMap
  savedConfig : Option HubConfig
deriving DecidableEq

/-- The silent pull's copy loop: overwrite the local copy with hub content
on difference, with no backup. -/
def autoPullLoop (hub : FileMap) : List String → FileMap → FileMap
  | [], memory => memory
  | f :: rest, memory =>
    autoPullLoop hub rest
      (match alookup hub f with
       | none => memory
       | some hubContent =>
         if hubContent = (alookup memory f).getD "" then memory
         else ainsert memory f hubContent)

/-- `SyncManager.triggerAutoSyncPull`: exits silently unless the config
exists, `autoSync` is on, the project is registered and its hub folder
exists; the `git pull` failure is swallowed; the copy loop overwrites
differing local files without backup; afterwards only the project's
`lastPull` is written into the saved config (`lastHubUpdate` untouched). -/
def triggerAutoSyncPull (env : PullEnv) (memory hub : FileMap) : AutoPullOutcome :=
  match env.config with
  | none => { memory := memory, savedConfig := none }
  | some config =>
    if config.autoSync = false then { memory := memory, savedConfig := none }
    else
      match projLookup config.projects env.projectName with
      | none => { memory := memory, savedConfig := none }
      | some projectConfig =>
        if env.hubFolderExists = false then { memory := memory, savedConfig := none }
        else
          let memory' := autoPullLoop hub SYNCABLE_FILES memory
          let pc := { projectConfig with lastPull := some env.now }
          let config' := { config with
            projects := projInsert config.projects env.projectName pc }
          { memory := memory', savedConfig := some config' }

/-! ## `SyncManager.registerProject`: folder-name validation and the path
of the created hub project directory

Strings coming from the user prompt are modelled as `List Char` and
filesystem paths as lists of path segments (`List (List Char)`), so that
`path.join` (POSIX flavour) can be given explicit normalization semantics:
join appends the name's `/`-separated segments to the base path, dropping
empty and `.` segments and resolving each `..` against the accumulated
path. -/

/-- A path segment (one directory-name component). -/
abbrev Seg := List Char

/-- JS `String.prototype.trim` on the characters the folder-name prompt can
realistically carry: strip leading and trailing whitespace. -/
def isSpaceChar (c : Char) : Bool := c = ' ' || c = '\t' || c = '\n' || c = '\r'

/-- Strip leading and trailing whitespace (`input.trim()`). -/
def trimChars (s : List Char) : List Char :=
  ((s.dropWhile isSpaceChar).reverse.dropWhile isSpaceChar).reverse

/-- The characters rejected by the source's validation regex
`/[<>:"|?*]/`. -/
def UNSAFE_CHARS : List Char := ['<', '>', ':', '"', '|', '?', '*']

/-- The `validate` callback of the folder-name prompt in
`registerProject`: reject when the trimmed input is empty
(`if (!input.trim()) ...`) or when the raw input contains one of the
regex's characters. -/
def validFolderName (input : List Char) : Bool :=
  if trimChars input = [] then false
  else if input.any (fun c => UNSAFE_CHARS.contains c) then false
  else true

/-- Split a character list on `/` (the separator `path.join` recognizes on
POSIX). -/
def splitSlash : List Char → List Char → List Seg
  | [], cur => [cur.reverse]
  | c :: rest, cur =>
    if c = '/' then cur.reverse :: splitSlash rest []
    else splitSlash rest (c :: cur)

/-- `path.join` normalization over segments: skip empty and `.` segments,
resolve `..` by dropping the last accumulated segment. -/
def normSegs : List Seg → List Seg → List Seg
  | acc, [] => acc
  | acc, seg :: rest =>
    if seg = [] then normSegs acc rest
    else if seg = ['.'] then normSegs acc rest
    else if seg = ['.', '.'] then normSegs acc.dropLast rest
    else normSegs (acc ++ [seg]) rest

/-- `path.join(base, name)` for a relative `name`, as segment lists. -/
def pathJoin (base : List Seg) (name : List Char) : List Seg :=
  normSegs base (splitSlash name [])

/-- The directory `registerProject` creates for an accepted folder name:
`path.join(this.hubLocalPath, folderName.trim())`. -/
def registerProjectDir (hubLocalPath : List Seg) (folderName : List Char) : List Seg :=
  pathJoin hubLocalPath (trimChars folderName)

/-- "No syncable file's local content differs from its hub copy": the
push copy loop's difference test (missing hub copy read as `''`) finds
nothing to copy. -/
def noLocalDiff (memory hub : FileMap) (files : List String) : Prop :=
  ∀ f ∈ files, ∀ c, alookup memory f = some c → (alookup hub f).getD "" = c

/-- Concrete registered project used in concrete instances. -/
def sampleProject : ProjectSyncConfig :=
  { localPath := "/home/user/proj", hubFolder := "proj",
    lastPush := none, lastPull := none }

/-- Concrete hub config (auto-sync on, project "proj" registered) used in
concrete instances. -/
def sampleConfig : HubConfig :=
  { hubRepo := "git@example.com:user/svetlio-hub.git",
    hubLocalPath := "/home/user/.ai-svetlio/hub",
    autoSync := true,
    lastHubUpdate := some "2026-01-01T00:00:00Z",
    projects := [("proj", sampleProject)] }

/-! ## Auto-sync debounce (`Memory.shouldAutoSync` / `Memory.triggerAutoSync`
in `tools.ts`) -/

/-- `AUTO_SYNC_DEBOUNCE_MS` from `tools.ts`. -/
def AUTO_SYNC_DEBOUNCE_MS : Nat := 30000

/-- The auto-sync fields of the `Memory` class: the flag set by
`initAutoSync`, whether the lazily-loaded sync component is present, and
the `lastAutoSyncTime` timestamp (milliseconds). -/
structure MemorySyncState where
  autoSyncEnabled : Bool
  hasSyncManager : Bool
  lastAutoSyncTime : Nat
deriving DecidableEq

/-- `Memory.shouldAutoSync`: deny when disabled or the sync component is
absent; deny (without touching state) when less than the debounce window
has elapsed since `lastAutoSyncTime`; otherwise record `now` and allow.
JS computes `now - last` as a possibly negative number, which compares
`< 30000` exactly when the truncated `Nat` subtraction does. -/
def shouldAutoSync (now : Nat) (s : MemorySyncState) : Bool × MemorySyncState :=
  if !s.autoSyncEnabled || !s.hasSyncManager then (false, s)
  else if now - s.lastAutoSyncTime < AUTO_SYNC_DEBOUNCE_MS then (false, s)
  else (true, { s with lastAutoSyncTime := now })

/-- `Memory.triggerAutoSync`: fire the silent push only for a syncable
filename and only when `shouldAutoSync` allows (the source's `&&`
short-circuits, so a non-syncable filename does not consume the debounce
window).  The returned `Bool` is whether `triggerAutoSyncPush` was
called. -/
def triggerAutoSync (filename : String) (now : Nat) (s : MemorySyncState) :
    Bool × MemorySyncState :=
  if SYNCABLE_FILES.contains filename then shouldAutoSync now s else (false, s)

/-! ## Helper lemmas -/

theorem alookup_ainsert_self (m : FileMap) (k v : String) :
    alookup (ainsert m k v) k = some v := by
  simp [ainsert, alookup]

theorem alookup_ainsert_ne (m : FileMap) (k v k' : String) (h : ¬ k = k') :
    alookup (ainsert m k v) k' = alookup m k' := by
  simp [ainsert, alookup, h]

/-- A filename not visited by push's copy loop keeps its hub content. -/
theorem pushLoop_hub_preserved (memory : FileMap) (g : String) :
    ∀ files : List String, g ∉ files → ∀ acc : PushAcc,
    alookup (pushLoop memory files acc).hub g = alookup acc.hub g := by
  intro files
  induction files with
  | nil => intro _ acc; rfl
  | cons f rest ih =>
    intro hg acc
    have hgf : ¬ f = g := fun h => hg (h ▸ List.mem_cons_self f rest)
    have hgrest : g ∉ rest := fun h => hg (List.mem_cons_of_mem f h)
    rw [pushLoop, ih hgrest]
    unfold pushStep
    cases halm : alookup memory f with
    | none => rfl
    | some lc =>
      simp only
      split
      · rfl
      · simp only [alookup_ainsert_ne acc.hub f lc g hgf]

/-- After push's copy loop, a syncable file that exists locally with
nonempty content `C` is present in the hub folder with content `C`
(either it was copied, or the hub already held `C`). -/
theorem pushLoop_hub_some (memory : FileMap) (C : String) (hC : C ≠ "") :
    ∀ files : List String, files.Nodup → ∀ f ∈ files,
    alookup memory f = some C → ∀ acc : PushAcc,
    alookup (pushLoop memory files acc).hub f = some C := by
  intro files
  induction files with
  | nil => intro _ f hf; exact absurd hf (List.not_mem_nil f)
  | cons g rest ih =>
    intro hnd f hf hm acc
    rcases List.mem_cons.mp hf with hfg | hfr
    · subst hfg
      have hnotin : f ∉ rest := (List.nodup_cons.mp hnd).1
      rw [pushLoop, pushLoop_hub_preserved memory f rest hnotin]
      simp only [pushStep, hm]
      split
      case isTrue heq =>
        cases hh : alookup acc.hub f with
        | none => rw [hh] at heq; simp at heq; exact absurd heq hC
        | some x => rw [hh] at heq; simp at heq; rw [heq]
      case isFalse hne =>
        exact alookup_ainsert_self acc.hub f C
    · have hnd' := (List.nodup_cons.mp hnd).2
      rw [pushLoop]
      exact ih hnd' f hfr hm _

/-- When no visited file differs, push's copy loop is the identity: it
changes no hub file and records no changed filename. -/
theorem pushLoop_nodiff (memory : FileMap) :
    ∀ files : List String, ∀ acc : PushAcc,
    noLocalDiff memory acc.hub files → pushLoop memory files acc = acc := by
  intro files
  induction files with
  | nil => intro acc _; rfl
  | cons f rest ih =>
    intro acc hnd
    have hstep : pushStep memory acc f = acc := by
      unfold pushStep
      cases hm : alookup memory f with
      | none => rfl
      | some lc =>
        have := hnd f (List.mem_cons_self f rest) lc hm
        simp [this]
    rw [pushLoop, hstep]
    exact ih acc (fun g hg c hc => hnd g (List.mem_cons_of_mem f hg) c hc)

/-- After push's copy loop the hub copy of every visited file that exists
locally agrees with the local copy (the loop establishes `noLocalDiff`). -/
theorem pushLoop_establishes_nodiff (memory : FileMap) :
    ∀ files : List String, files.Nodup → ∀ acc : PushAcc,
    noLocalDiff memory (pushLoop memory files acc).hub files := by
  intro files
  induction files with
  | nil => intro _ acc f hf; exact absurd hf (List.not_mem_nil f)
  | cons g rest ih =>
    intro hnd acc f hf c hc
    rcases List.mem_cons.mp hf with hfg | hfr
    · subst hfg
      have hnotin : f ∉ rest := (List.nodup_cons.mp hnd).1
      rw [pushLoop, pushLoop_hub_preserved memory f rest hnotin]
      simp only [pushStep, hc]
      split
      case isTrue heq => exact heq.symm
      case isFalse hne =>
        rw [alookup_ainsert_self acc.hub f c]
        rfl
    · have hnd' := (List.nodup_cons.mp hnd).2
      rw [pushLoop]
      exact ih hnd' _ f hfr c hc

/-- The syncable-filename list has no duplicates. -/
theorem syncable_files_nodup : SYNCABLE_FILES.Nodup := by decide

/-- Under passing config/registration/clone checks, `push` runs the copy
loop and leaves the hub folder exactly as the loop left it, in every
result branch. -/
theorem push_hub_eq (env : PushEnv) (memory hub : FileMap)
    (config : HubConfig) (pc : ProjectSyncConfig)
    (h1 : env.config = some config)
    (h2 : projLookup config.projects env.projectName = some pc)
    (h3 : env.hubCloned = true) :
    (push env memory hub).hub = (pushLoop memory SYNCABLE_FILES ⟨hub, []⟩).hub := by
  unfold push
  rw [h1]
  simp only [h2, h3]
  simp only [Bool.true_eq_false, if_false]
  split
  · rfl
  · split <;> rfl

/-- Under passing checks, when the copy loop records no change `push`
returns the "nothing to send" success and never enters the git
add/commit/push sequence. -/
theorem push_no_changes (env : PushEnv) (memory hub : FileMap)
    (config : HubConfig) (pc : ProjectSyncConfig)
    (h1 : env.config = some config)
    (h2 : projLookup config.projects env.projectName = some pc)
    (h3 : env.hubCloned = true)
    (hch : (pushLoop memory SYNCABLE_FILES ⟨hub, []⟩).changed = []) :
    (push env memory hub).result = ⟨true, [], "Няма промени за изпращане."⟩ ∧
    (push env memory hub).gitCommitAttempted = false ∧
    (push env memory hub).hub = (pushLoop memory SYNCABLE_FILES ⟨hub, []⟩).hub := by
  unfold push
  rw [h1]
  simp only [h2, h3]
  simp only [Bool.true_eq_false, if_false]
  simp [hch]

/-- Pull's copy loop only appends to the changed list. -/
theorem pullLoop_changed_mono (hub : FileMap) :
    ∀ files : List String, ∀ acc : PullAcc, ∀ f : String,
    f ∈ acc.changed → f ∈ (pullLoop hub files acc).changed := by
  intro files
  induction files with
  | nil => intro acc f hf; exact hf
  | cons g rest ih =>
    intro acc f hf
    rw [pullLoop]
    apply ih
    unfold pullStep
    cases alookup hub g with
    | none => exact hf
    | some hc =>
      simp only
      split
      · exact hf
      · exact List.mem_append_left [g] hf

/-- A filename not visited by pull's copy loop keeps its local content and
its (absent) backup entry. -/
theorem pullLoop_preserved (hub : FileMap) (g : String) :
    ∀ files : List String, g ∉ files → ∀ acc : PullAcc,
    alookup (pullLoop hub files acc).memory g = alookup acc.memory g ∧
    optLookup (pullLoop hub files acc).backup g = optLookup acc.backup g := by
  intro files
  induction files with
  | nil => intro _ acc; exact ⟨rfl, rfl⟩
  | cons f rest ih =>
    intro hg acc
    have hgf : ¬ f = g := fun h => hg (h ▸ List.mem_cons_self f rest)
    have hgrest : g ∉ rest := fun h => hg (List.mem_cons_of_mem f h)
    rw [pullLoop]
    obtain ⟨hm, hb⟩ := ih hgrest (pullStep hub acc f)
    rw [hm, hb]
    unfold pullStep
    cases alookup hub f with
    | none => exact ⟨rfl, rfl⟩
    | some hc =>
      simp only
      split
      · exact ⟨rfl, rfl⟩
      · constructor
        · exact alookup_ainsert_ne acc.memory f hc g hgf
        · show optLookup (some _) g = optLookup acc.backup g
          cases hmem : alookup acc.memory f with
          | some lc =>
            simp only [hmem, optLookup]
            rw [alookup_ainsert_ne _ f lc g hgf]
            cases acc.backup with
            | none => rfl
            | some b => rfl
          | none =>
            simp only [hmem, optLookup]
            cases acc.backup with
            | none => rfl
            | some b => rfl

/-- The backup guarantee of pull's copy loop: a visited filename whose
local copy exists and differs from its hub copy ends with its pre-pull
local content in the backup directory, its local content overwritten by
the hub content, and its name recorded as changed. -/
theorem pullLoop_backup (hub : FileMap) (hc lc : String) (hne : hc ≠ lc) :
    ∀ files : List String, files.Nodup → ∀ f ∈ files,
    alookup hub f = some hc → ∀ acc : PullAcc,
    alookup acc.memory f = some lc →
    alookup (pullLoop hub files acc).memory f = some hc ∧
    optLookup (pullLoop hub files acc).backup f = some lc ∧
    f ∈ (pullLoop hub files acc).changed := by
  intro files
  induction files with
  | nil => intro _ f hf; exact absurd hf (List.not_mem_nil f)
  | cons g rest ih =>
    intro hnd f hf hhub acc hmem
    rcases List.mem_cons.mp hf with hfg | hfr
    · subst hfg
      have hnotin : f ∉ rest := (List.nodup_cons.mp hnd).1
      rw [pullLoop]
      obtain ⟨hm, hb⟩ := pullLoop_preserved hub f rest hnotin (pullStep hub acc f)
      have hstep : pullStep hub acc f =
          { memory := ainsert acc.memory f hc,
            backup := some (ainsert (acc.backup.getD []) f lc),
            changed := acc.changed ++ [f] } := by
        unfold pullStep
        rw [hhub]
        simp only [hmem, Option.getD_some]
        rw [if_neg hne]
      refine ⟨?_, ?_, ?_⟩
      · rw [hm, hstep]
        exact alookup_ainsert_self acc.memory f hc
      · rw [hb, hstep]
        show alookup (ainsert (acc.backup.getD []) f lc) f = some lc
        exact alookup_ainsert_self _ f lc
      · apply pullLoop_changed_mono
        rw [hstep]
        exact List.mem_append_right acc.changed (List.mem_singleton.mpr rfl)
    · have hnd' := (List.nodup_cons.mp hnd).2
      rw [pullLoop]
      apply ih hnd' f hfr hhub
      unfold pullStep
      cases hg : alookup hub g with
      | none => exact hmem
      | some hcg =>
        simp only
        split
        · exact hmem
        · show alookup (ainsert acc.memory g hcg) f = some lc
          have hgf : ¬ g = f := fun h => (List.nodup_cons.mp hnd).1 (h ▸ hfr)
          rw [alookup_ainsert_ne acc.memory g hcg f hgf]
          exact hmem

/-- After pull's copy loop, a visited filename whose hub copy holds a
nonempty content `C` ends with local content `C` (either it was
overwritten, or the local copy already held `C`). -/
theorem pullLoop_memory_some (hub : FileMap) (C : String) (hC : C ≠ "") :
    ∀ files : List String, files.Nodup → ∀ f ∈ files,
    alookup hub f = some C → ∀ acc : PullAcc,
    alookup (pullLoop hub files acc).memory f = some C := by
  intro files
  induction files with
  | nil => intro _ f hf; exact absurd hf (List.not_mem_nil f)
  | cons g rest ih =>
    intro hnd f hf hhub acc
    rcases List.mem_cons.mp hf with hfg | hfr
    · subst hfg
      have hnotin : f ∉ rest := (List.nodup_cons.mp hnd).1
      rw [pullLoop]
      rw [(pullLoop_preserved hub f rest hnotin (pullStep hub acc f)).1]
      unfold pullStep
      rw [hhub]
      simp only
      split
      case isTrue heq =>
        cases hl : alookup acc.memory f with
        | none => rw [hl] at heq; simp at heq; exact absurd heq hC
        | some x => rw [hl] at heq; simp at heq; rw [heq]
      case isFalse hne =>
        exact alookup_ainsert_self acc.memory f C
    · have hnd' := (List.nodup_cons.mp hnd).2
      rw [pullLoop]
      exact ih hnd' f hfr hhub _

/-- The silent pull's copy loop performs exactly the memory-directory
updates of the interactive pull's copy loop. -/
theorem autoPullLoop_eq_pullLoop (hub : FileMap) :
    ∀ files : List String, ∀ acc : PullAcc,
    autoPullLoop hub files acc.memory = (pullLoop hub files acc).memory := by
  intro files
  induction files with
  | nil => intro acc; rfl
  | cons f rest ih =>
    intro acc
    rw [pullLoop, autoPullLoop]
    have hmem : (match alookup hub f with
        | none => acc.memory
        | some hubContent =>
          if hubContent = (alookup acc.memory f).getD "" then acc.memory
          else ainsert acc.memory f hubContent) = (pullStep hub acc f).memory := by
      unfold pullStep
      cases alookup hub f with
      | none => rfl
      | some hc =>
        simp only
        split
        · rfl
        · rfl
    rw [hmem]
    exact ih (pullStep hub acc f)

/-- Under passing checks (config present, project registered, hub cloned,
`git pull` succeeding, hub project folder present), `pull` runs the copy
loop, saves the config with both timestamps set to `env.now`, and removes
the backup directory exactly when the changed list is empty. -/
theorem pull_main (env : PullEnv) (memory hub : FileMap)
    (config : HubConfig) (pc : ProjectSyncConfig)
    (h1 : env.config = some config)
    (h2 : projLookup config.projects env.projectName = some pc)
    (h3 : env.hubCloned = true)
    (h4 : env.gitPullOk = true)
    (h5 : env.hubFolderExists = true) :
    pull env memory hub =
      (if (pullLoop hub SYNCABLE_FILES ⟨memory, none, []⟩).changed = [] then
        { result := ⟨true, [], "Всичко е актуално, няма промени."⟩,
          memory := (pullLoop hub SYNCABLE_FILES ⟨memory, none, []⟩).memory,
          backup := none,
          savedConfig := some { config with
            lastHubUpdate := some env.now,
            projects := projInsert config.projects env.projectName
              { pc with lastPull := some env.now } } }
      else
        { result := ⟨true, (pullLoop hub SYNCABLE_FILES ⟨memory, none, []⟩).changed,
                     "Pull завършен успешно."⟩,
          memory := (pullLoop hub SYNCABLE_FILES ⟨memory, none, []⟩).memory,
          backup := (pullLoop hub SYNCABLE_FILES ⟨memory, none, []⟩).backup,
          savedConfig := some { config with
            lastHubUpdate := some env.now,
            projects := projInsert config.projects env.projectName
              { pc with lastPull := some env.now } } }) := by
  unfold pull
  rw [h1]
  simp only [h2, h3, h4, h5, Bool.true_eq_false, if_false]

/-- Under passing silent-pull checks (config present with auto-sync on,
project registered, hub project folder present), `triggerAutoSyncPull`
runs the backup-less copy loop and saves the config with only the
project's `lastPull` set. -/
theorem triggerAutoSyncPull_main (env : PullEnv) (memory hub : FileMap)
    (config : HubConfig) (pc : ProjectSyncConfig)
    (h1 : env.config = some config)
    (hauto : config.autoSync = true)
    (h2 : projLookup config.projects env.projectName = some pc)
    (h5 : env.hubFolderExists = true) :
    triggerAutoSyncPull env memory hub =
      { memory := autoPullLoop hub SYNCABLE_FILES memory,
        savedConfig := some { config with
          projects := projInsert config.projects env.projectName
            { pc with lastPull := some env.now } } } := by
  unfold triggerAutoSyncPull
  rw [h1]
  simp only [h2, hauto, h5, Bool.true_eq_false, if_false]

theorem projLookup_projInsert_self (m : List (String × ProjectSyncConfig))
    (k : String) (v : ProjectSyncConfig) :
    projLookup (projInsert m k v) k = some v := by
  simp [projInsert, projLookup]

/-! ## Claim C1 -/

/-- C1, as stated, is false on the code: with the files
`[("STATE.md", "v1")]` locally, an empty hub folder and a failing
add/commit/push step, push copies `STATE.md` into the hub folder (it stays
there in the failed outcome) yet the failed `SyncResult` reports an empty
changed-file list — the partial-success file list IS hidden. -/
theorem C1_counterexample :
    (push ⟨some sampleConfig, "proj", true, false, "remote rejected", "2026-02-02T00:00:00Z"⟩
        [("STATE.md", "v1")] []).result.success = false ∧
    alookup (push ⟨some sampleConfig, "proj", true, false, "remote rejected", "2026-02-02T00:00:00Z"⟩
        [("STATE.md", "v1")] []).hub "STATE.md" = some "v1" ∧
    (push ⟨some sampleConfig, "proj", true, false, "remote rejected", "2026-02-02T00:00:00Z"⟩
        [("STATE.md", "v1")] []).result.filesChanged = [] := by
  refine ⟨?_, ?_, ?_⟩ <;> decide

/-- C1 amended: when some syncable files were copied into the hub clone
and the subsequent git add/commit/push step fails, push returns a failed
`SyncResult` carrying the underlying message with an EMPTY changed-file
list, while the already-copied files are not rolled back — they remain in
the hub clone's working tree. -/
theorem C1_push_failure_keeps_copies (env : PushEnv) (memory hub : FileMap)
    (config : HubConfig) (pc : ProjectSyncConfig)
    (h1 : env.config = some config)
    (h2 : projLookup config.projects env.projectName = some pc)
    (h3 : env.hubCloned = true)
    (hfail : env.gitPushOk = false)
    (hch : (pushLoop memory SYNCABLE_FILES ⟨hub, []⟩).changed ≠ []) :
    (push env memory hub).result =
      ⟨false, [], "Push грешка: " ++ env.gitErr⟩ ∧
    (push env memory hub).hub = (pushLoop memory SYNCABLE_FILES ⟨hub, []⟩).hub := by
  unfold push
  rw [h1]
  simp only [h2, h3, Bool.true_eq_false, if_false]
  rw [if_neg hch]
  simp [hfail]

/-- C1 witness: the amended theorem applied at the counterexample's
concrete input. -/
theorem C1_witness :
    (push ⟨some sampleConfig, "proj", true, false, "remote rejected", "T2"⟩
        [("STATE.md", "v1")] []).result =
      ⟨false, [], "Push грешка: " ++ "remote rejected"⟩ ∧
    (push ⟨some sampleConfig, "proj", true, false, "remote rejected", "T2"⟩
        [("STATE.md", "v1")] []).hub =
      (pushLoop [("STATE.md", "v1")] SYNCABLE_FILES ⟨[], []⟩).hub :=
  C1_push_failure_keeps_copies
    ⟨some sampleConfig, "proj", true, false, "remote rejected", "T2"⟩
    [("STATE.md", "v1")] [] sampleConfig sampleProject
    (by decide) (by decide) (by decide) (by decide) (by decide)

/-! ## Claim C2 -/

/-- C2, as stated, is false on the code: the silent pull completes (the
differing local `STATE.md` is overwritten with hub content and the config
is saved with `lastPull` set), yet the global `lastHubUpdate` keeps its
old value `"2026-01-01T00:00:00Z"` instead of the call's timestamp `"T"`
— and no backup step exists in `triggerAutoSyncPull` at all. -/
theorem C2_counterexample :
    alookup (triggerAutoSyncPull ⟨some sampleConfig, "proj", true, true, "", true, "T"⟩
        [("STATE.md", "v1")] [("STATE.md", "v2")]).memory "STATE.md" = some "v2" ∧
    ((triggerAutoSyncPull ⟨some sampleConfig, "proj", true, true, "", true, "T"⟩
        [("STATE.md", "v1")] [("STATE.md", "v2")]).savedConfig.map
          HubConfig.lastHubUpdate) = some (some "2026-01-01T00:00:00Z") ∧
    ((triggerAutoSyncPull ⟨some sampleConfig, "proj", true, true, "", true, "T"⟩
        [("STATE.md", "v1")] [("STATE.md", "v2")]).savedConfig.map
          HubConfig.lastHubUpdate) ≠ some (some "T") := by
  refine ⟨?_, ?_, ?_⟩ <;> decide

/-- C2 amended: the silent pull performs exactly the interactive pull's
file-level overwrite protocol on the memory directory (same loop over the
syncable filenames, overwriting each differing local file with hub
content), but it takes NO backup of the overwritten files, and on
completion it saves a config in which only the project's `lastPull` is
set while the global `lastHubUpdate` keeps its previous value. -/
theorem C2_autoPull_protocol (env : PullEnv) (memory hub : FileMap)
    (config : HubConfig) (pc : ProjectSyncConfig)
    (h1 : env.config = some config)
    (hauto : config.autoSync = true)
    (h2 : projLookup config.projects env.projectName = some pc)
    (h5 : env.hubFolderExists = true) :
    (triggerAutoSyncPull env memory hub).memory =
      (pullLoop hub SYNCABLE_FILES ⟨memory, none, []⟩).memory ∧
    (triggerAutoSyncPull env memory hub).savedConfig =
      some { config with
              projects := projInsert config.projects env.projectName
                ({ pc with lastPull := some env.now }) } ∧
    ((triggerAutoSyncPull env memory hub).savedConfig.map HubConfig.lastHubUpdate) =
      some config.lastHubUpdate := by
  rw [triggerAutoSyncPull_main env memory hub config pc h1 hauto h2 h5]
  refine ⟨?_, rfl, rfl⟩
  exact autoPullLoop_eq_pullLoop hub SYNCABLE_FILES ⟨memory, none, []⟩

/-- C2 witness: the amended theorem applied at the counterexample's
concrete input. -/
theorem C2_witness :
    (triggerAutoSyncPull ⟨some sampleConfig, "proj", true, true, "", true, "T"⟩
        [("STATE.md", "v1")] [("STATE.md", "v2")]).memory =
      (pullLoop [("STATE.md", "v2")] SYNCABLE_FILES ⟨[("STATE.md", "v1")], none, []⟩).memory ∧
    (triggerAutoSyncPull ⟨some sampleConfig, "proj", true, true, "", true, "T"⟩
        [("STATE.md", "v1")] [("STATE.md", "v2")]).savedConfig =
      some { sampleConfig with
              projects := projInsert sampleConfig.projects "proj"
                ({ sampleProject with lastPull := some "T" }) } ∧
    ((triggerAutoSyncPull ⟨some sampleConfig, "proj", true, true, "", true, "T"⟩
        [("STATE.md", "v1")] [("STATE.md", "v2")]).savedConfig.map
          HubConfig.lastHubUpdate) = some sampleConfig.lastHubUpdate :=
  C2_autoPull_protocol ⟨some sampleConfig, "proj", true, true, "", true, "T"⟩
    [("STATE.md", "v1")] [("STATE.md", "v2")] sampleConfig sampleProject
    (by decide) (by decide) (by decide) (by decide)

/-! ## Claim C3 -/

/-- C3, as stated, is false on the code for the empty content: project A's
local `STATE.md` holds `""` and the hub folder has no copy; push reads the
missing hub copy as `''`, finds no difference, and copies nothing, so a
pull on project B (whose `STATE.md` holds `"old"`) leaves B's content
`"old"`, not the pushed `""`. -/
theorem C3_counterexample :
    alookup [("STATE.md", "")] "STATE.md" = some "" ∧
    alookup
      (pull ⟨some sampleConfig, "proj", true, true, "", true, "T"⟩
        [("STATE.md", "old")]
        (push ⟨some sampleConfig, "proj", true, true, "", "T"⟩
          [("STATE.md", "")] []).hub).memory "STATE.md" = some "old" ∧
    some "old" ≠ some ("" : String) := by
  refine ⟨?_, ?_, ?_⟩ <;> decide

/-- C3 amended: for every NONEMPTY content `C` written to a syncable file
in a registered project, after push copies it into the hub folder, a pull
against that same hub folder on another registered project yields `C` in
the receiving memory directory, byte for byte.  (`C = ""` is the one
exception: the source reads a missing hub file as `''`, so an empty local
file is never copied.) -/
theorem C3_roundtrip (envA : PushEnv) (envB : PullEnv)
    (memA memB hub : FileMap) (f C : String)
    (configA : HubConfig) (pcA : ProjectSyncConfig)
    (configB : HubConfig) (pcB : ProjectSyncConfig)
    (hC : C ≠ "")
    (hf : f ∈ SYNCABLE_FILES)
    (hmem : alookup memA f = some C)
    (hA1 : envA.config = some configA)
    (hA2 : projLookup configA.projects envA.projectName = some pcA)
    (hA3 : envA.hubCloned = true)
    (hB1 : envB.config = some configB)
    (hB2 : projLookup configB.projects envB.projectName = some pcB)
    (hB3 : envB.hubCloned = true)
    (hB4 : envB.gitPullOk = true)
    (hB5 : envB.hubFolderExists = true) :
    alookup (pull envB memB (push envA memA hub).hub).memory f = some C := by
  have hhub : alookup (push envA memA hub).hub f = some C := by
    rw [push_hub_eq envA memA hub configA pcA hA1 hA2 hA3]
    exact pushLoop_hub_some memA C hC SYNCABLE_FILES syncable_files_nodup f hf hmem ⟨hub, []⟩
  rw [pull_main envB memB (push envA memA hub).hub configB pcB hB1 hB2 hB3 hB4 hB5]
  split
  · exact pullLoop_memory_some (push envA memA hub).hub C hC SYNCABLE_FILES
      syncable_files_nodup f hf hhub ⟨memB, none, []⟩
  · exact pullLoop_memory_some (push envA memA hub).hub C hC SYNCABLE_FILES
      syncable_files_nodup f hf hhub ⟨memB, none, []⟩

/-- C3 witness: the amended round trip at a concrete nonempty content. -/
theorem C3_witness :
    alookup
      (pull ⟨some sampleConfig, "proj", true, true, "", true, "T"⟩
        [("STATE.md", "old")]
        (push ⟨some sampleConfig, "proj", true, true, "", "T"⟩
          [("STATE.md", "v1")] []).hub).memory "STATE.md" = some "v1" :=
  C3_roundtrip ⟨some sampleConfig, "proj", true, true, "", "T"⟩
    ⟨some sampleConfig, "proj", true, true, "", true, "T"⟩
    [("STATE.md", "v1")] [("STATE.md", "old")] [] "STATE.md" "v1"
    sampleConfig sampleProject sampleConfig sampleProject
    (by decide) (by decide) (by decide) (by decide) (by decide) (by decide)
    (by decide) (by decide) (by decide) (by decide) (by decide)

/-! ## Claim C4 -/

/-- Splitting a slash-free character list yields one segment. -/
theorem splitSlash_no_slash (l : List Char) (h : ('/' : Char) ∉ l) :
    ∀ cur : List Char, splitSlash l cur = [cur.reverse ++ l] := by
  induction l with
  | nil => intro cur; simp [splitSlash]
  | cons c rest ih =>
    intro cur
    have hc : ¬ c = '/' := fun hq => h (hq ▸ List.mem_cons_self c rest)
    have hrest : ('/' : Char) ∉ rest := fun hq => h (List.mem_cons_of_mem c hq)
    simp only [splitSlash, if_neg hc, ih hrest]
    simp

/-- A list is a Boolean prefix of itself extended by anything. -/
theorem isPrefixOf_append_self (l t : List Seg) : l.isPrefixOf (l ++ t) = true := by
  induction l with
  | nil => simp [List.isPrefixOf]
  | cons a rest ih => simp [List.isPrefixOf, ih]

/-- C4, as stated, is false on the code: the folder name `".."` passes
`registerProject`'s validation (nonempty after trimming, none of the
characters `<>:"|?*`), yet `path.join(hubLocalPath, "..")` resolves to the
hub clone's PARENT directory — the created directory escapes the hub
clone. -/
theorem C4_counterexample :
    validFolderName ['.', '.'] = true ∧
    registerProjectDir [['h', 'o', 'm', 'e'], ['h', 'u', 'b']] ['.', '.'] =
      [['h', 'o', 'm', 'e']] ∧
    ([['h', 'o', 'm', 'e'], ['h', 'u', 'b']].isPrefixOf
      (registerProjectDir [['h', 'o', 'm', 'e'], ['h', 'u', 'b']] ['.', '.'])) = false := by
  refine ⟨?_, ?_, ?_⟩ <;> decide

/-- C4 amended: a folder name accepted by `registerProject`'s validation
that additionally contains no path separator and is not `"."` or `".."`
yields exactly the hub clone's child directory `hubLocalPath/<name>`,
strictly inside the hub clone.  (Validation alone does NOT guarantee
containment: it accepts `".."` and separator-bearing names.) -/
theorem C4_safe_names_stay_inside (base : List Seg) (name : List Char)
    (hvalid : validFolderName name = true)
    (hslash : ('/' : Char) ∉ trimChars name)
    (hdot : trimChars name ≠ ['.'])
    (hdotdot : trimChars name ≠ ['.', '.']) :
    registerProjectDir base name = base ++ [trimChars name] ∧
    base.isPrefixOf (registerProjectDir base name) = true ∧
    registerProjectDir base name ≠ base := by
  have hne : trimChars name ≠ [] := by
    intro h
    unfold validFolderName at hvalid
    rw [if_pos h] at hvalid
    exact Bool.false_ne_true hvalid
  have hjoin : registerProjectDir base name = base ++ [trimChars name] := by
    unfold registerProjectDir pathJoin
    rw [splitSlash_no_slash (trimChars name) hslash []]
    simp only [List.reverse_nil, List.nil_append]
    unfold normSegs
    rw [if_neg hne, if_neg hdot, if_neg hdotdot]
    rfl
  refine ⟨hjoin, ?_, ?_⟩
  · rw [hjoin]
    exact isPrefixOf_append_self base [trimChars name]
  · rw [hjoin]
    simp

/-- C4 witness: the amended theorem at the concrete accepted name
`"my"`. -/
theorem C4_witness :
    registerProjectDir [['h', 'u', 'b']] ['m', 'y'] = [['h', 'u', 'b']] ++ [['m', 'y']] ∧
    ([['h', 'u', 'b']].isPrefixOf (registerProjectDir [['h', 'u', 'b']] ['m', 'y'])) = true ∧
    registerProjectDir [['h', 'u', 'b']] ['m', 'y'] ≠ [['h', 'u', 'b']] :=
  C4_safe_names_stay_inside [['h', 'u', 'b']] ['m', 'y']
    (by decide) (by decide) (by decide) (by decide)

/-! ## Claim C5 -/

/-- C5, as stated, is false on the code: pulling `STATE.md` into a project
with no local copy lazily creates the backup directory (`ensureDir` runs
before the existence re-check) but copies nothing into it; because the
changed list is nonempty, the removal branch is skipped and the empty
backup directory is left behind. -/
theorem C5_counterexample :
    (pull ⟨some sampleConfig, "proj", true, true, "", true, "T"⟩
        [] [("STATE.md", "v1")]).backup = some [] ∧
    (pull ⟨some sampleConfig, "proj", true, true, "", true, "T"⟩
        [] [("STATE.md", "v1")]).result.filesChanged = ["STATE.md"] := by
  refine ⟨?_, ?_⟩ <;> decide

/-- C5 amended: the backup directory is removed (equivalently, never
created) exactly in pull invocations whose changed-file list ends empty;
a pull that records changes can leave behind a backup directory that is
empty, when every changed file had no pre-pull local copy. -/
theorem C5_no_backup_when_no_changes (env : PullEnv) (memory hub : FileMap)
    (h : (pull env memory hub).result.filesChanged = []) :
    (pull env memory hub).backup = none := by
  unfold pull at h ⊢
  cases hcfg : env.config with
  | none => simp only [hcfg]
  | some config =>
    simp only [hcfg] at h ⊢
    cases hpl : projLookup config.projects env.projectName with
    | none => simp only [hpl]
    | some pc =>
      simp only [hpl] at h ⊢
      by_cases h3 : env.hubCloned = false
      · simp only [if_pos h3]
      · simp only [if_neg h3] at h ⊢
        by_cases h4 : env.gitPullOk = false
        · simp only [if_pos h4]
        · simp only [if_neg h4] at h ⊢
          by_cases h5 : env.hubFolderExists = false
          · simp only [if_pos h5]
          · simp only [if_neg h5] at h ⊢
            by_cases hch : (pullLoop hub SYNCABLE_FILES ⟨memory, none, []⟩).changed = []
            · simp only [if_pos hch]
            · simp only [if_neg hch] at h
              exact absurd h hch

/-- C5 witness: the amended theorem applied at a pull that finds nothing
to change. -/
theorem C5_witness :
    (pull ⟨some sampleConfig, "proj", true, true, "", true, "T"⟩
        [("STATE.md", "v1")] [("STATE.md", "v1")]).backup = none :=
  C5_no_backup_when_no_changes ⟨some sampleConfig, "proj", true, true, "", true, "T"⟩
    [("STATE.md", "v1")] [("STATE.md", "v1")] (by decide)

/-! ## Claim C6 -/

/-- C6, as stated, is false on the code: when the project's hub folder
does not exist yet, pull reports success with an empty changed list but
returns BEFORE the timestamp update — `saveConfig` is never called, so
neither `lastPull` nor `lastHubUpdate` is updated or persisted. -/
theorem C6_counterexample :
    (pull ⟨some sampleConfig, "proj", true, true, "", false, "T"⟩
        [("STATE.md", "v1")] []).result.success = true ∧
    (pull ⟨some sampleConfig, "proj", true, true, "", false, "T"⟩
        [("STATE.md", "v1")] []).result.filesChanged = [] ∧
    (pull ⟨some sampleConfig, "proj", true, true, "", false, "T"⟩
        [("STATE.md", "v1")] []).savedConfig = none := by
  refine ⟨?_, ?_, ?_⟩ <;> decide

/-- C6 amended: every pull invocation that passes the checks AND finds the
project's hub folder present completes successfully, saving a config whose
global `lastHubUpdate` and project `lastPull` both carry the call's
timestamp, regardless of whether any file changed; the missing-hub-folder
completion path instead returns success without updating or persisting
anything. -/
theorem C6_pull_updates_timestamps (env : PullEnv) (memory hub : FileMap)
    (config : HubConfig) (pc : ProjectSyncConfig)
    (h1 : env.config = some config)
    (h2 : projLookup config.projects env.projectName = some pc)
    (h3 : env.hubCloned = true)
    (h4 : env.gitPullOk = true)
    (h5 : env.hubFolderExists = true) :
    (pull env memory hub).result.success = true ∧
    ((pull env memory hub).savedConfig.map HubConfig.lastHubUpdate) =
      some (some env.now) ∧
    (((pull env memory hub).savedConfig.bind
        (fun c => projLookup c.projects env.projectName)).map
      ProjectSyncConfig.lastPull) = some (some env.now) := by
  rw [pull_main env memory hub config pc h1 h2 h3 h4 h5]
  split
  · refine ⟨rfl, rfl, ?_⟩
    simp [projLookup_projInsert_self]
  · refine ⟨rfl, rfl, ?_⟩
    simp [projLookup_projInsert_self]

/-- C6 witness: the amended theorem at a concrete no-change pull. -/
theorem C6_witness :
    (pull ⟨some sampleConfig, "proj", true, true, "", true, "T"⟩
        [("STATE.md", "v1")] [("STATE.md", "v1")]).result.success = true ∧
    ((pull ⟨some sampleConfig, "proj", true, true, "", true, "T"⟩
        [("STATE.md", "v1")] [("STATE.md", "v1")]).savedConfig.map
      HubConfig.lastHubUpdate) = some (some "T") ∧
    (((pull ⟨some sampleConfig, "proj", true, true, "", true, "T"⟩
        [("STATE.md", "v1")] [("STATE.md", "v1")]).savedConfig.bind
        (fun c => projLookup c.projects "proj")).map
      ProjectSyncConfig.lastPull) = some (some "T") :=
  C6_pull_updates_timestamps ⟨some sampleConfig, "proj", true, true, "", true, "T"⟩
    [("STATE.md", "v1")] [("STATE.md", "v1")] sampleConfig sampleProject
    (by decide) (by decide) (by decide) (by decide) (by decide)

/-! ## Claim C7 -/

/-- C7 (confirmed): in a pull that passes the checks, every syncable
filename whose local copy exists and differs from its hub copy has its
pre-pull local content stored in the backup directory created during that
same pull, its local content overwritten with the hub content, and its
name reported in the changed-file list. -/
theorem C7_backup_before_overwrite (env : PullEnv) (memory hub : FileMap)
    (config : HubConfig) (pc : ProjectSyncConfig) (f hc lc : String)
    (h1 : env.config = some config)
    (h2 : projLookup config.projects env.projectName = some pc)
    (h3 : env.hubCloned = true)
    (h4 : env.gitPullOk = true)
    (h5 : env.hubFolderExists = true)
    (hf : f ∈ SYNCABLE_FILES)
    (hhub : alookup hub f = some hc)
    (hmem : alookup memory f = some lc)
    (hne : hc ≠ lc) :
    optLookup (pull env memory hub).backup f = some lc ∧
    alookup (pull env memory hub).memory f = some hc ∧
    f ∈ (pull env memory hub).result.filesChanged := by
  obtain ⟨hm, hb, hch⟩ := pullLoop_backup hub hc lc hne SYNCABLE_FILES
    syncable_files_nodup f hf hhub ⟨memory, none, []⟩ hmem
  have hnonempty : (pullLoop hub SYNCABLE_FILES ⟨memory, none, []⟩).changed ≠ [] :=
    List.ne_nil_of_mem hch
  rw [pull_main env memory hub config pc h1 h2 h3 h4 h5, if_neg hnonempty]
  exact ⟨hb, hm, hch⟩

/-- C7 witness: concrete pull where local `STATE.md` = `"v1"` differs from
hub `"v2"`: the backup holds `"v1"`, the local file becomes `"v2"`. -/
theorem C7_witness :
    optLookup (pull ⟨some sampleConfig, "proj", true, true, "", true, "T"⟩
        [("STATE.md", "v1")] [("STATE.md", "v2")]).backup "STATE.md" = some "v1" ∧
    alookup (pull ⟨some sampleConfig, "proj", true, true, "", true, "T"⟩
        [("STATE.md", "v1")] [("STATE.md", "v2")]).memory "STATE.md" = some "v2" ∧
    "STATE.md" ∈ (pull ⟨some sampleConfig, "proj", true, true, "", true, "T"⟩
        [("STATE.md", "v1")] [("STATE.md", "v2")]).result.filesChanged :=
  C7_backup_before_overwrite ⟨some sampleConfig, "proj", true, true, "", true, "T"⟩
    [("STATE.md", "v1")] [("STATE.md", "v2")] sampleConfig sampleProject
    "STATE.md" "v2" "v1"
    (by decide) (by decide) (by decide) (by decide) (by decide)
    (by decide) (by decide) (by decide) (by decide)

/-! ## Claim C8 -/

/-- C8 (confirmed): when no syncable file's local content differs from its
hub copy, `push` succeeds with an empty changed-file list, leaves the hub
folder untouched and never enters the git add/commit/push sequence; and
after any first push, a second push with unchanged local files returns an
empty changed-file list without attempting a commit. -/
theorem C8_push_idempotent (env1 env2 : PushEnv) (memory hub : FileMap)
    (config1 : HubConfig) (pc1 : ProjectSyncConfig)
    (config2 : HubConfig) (pc2 : ProjectSyncConfig)
    (h11 : env1.config = some config1)
    (h12 : projLookup config1.projects env1.projectName = some pc1)
    (h13 : env1.hubCloned = true)
    (h21 : env2.config = some config2)
    (h22 : projLookup config2.projects env2.projectName = some pc2)
    (h23 : env2.hubCloned = true) :
    (noLocalDiff memory hub SYNCABLE_FILES →
      (push env1 memory hub).result = ⟨true, [], "Няма промени за изпращане."⟩ ∧
      (push env1 memory hub).gitCommitAttempted = false ∧
      (push env1 memory hub).hub = hub) ∧
    ((push env2 memory (push env1 memory hub).hub).result.filesChanged = [] ∧
     (push env2 memory (push env1 memory hub).hub).result.success = true ∧
     (push env2 memory (push env1 memory hub).hub).gitCommitAttempted = false) := by
  constructor
  · intro hnd
    have hloop : pushLoop memory SYNCABLE_FILES ⟨hub, []⟩ = ⟨hub, []⟩ :=
      pushLoop_nodiff memory SYNCABLE_FILES ⟨hub, []⟩ hnd
    have hch : (pushLoop memory SYNCABLE_FILES ⟨hub, []⟩).changed = [] := by rw [hloop]
    obtain ⟨hr, hg, hh⟩ := push_no_changes env1 memory hub config1 pc1 h11 h12 h13 hch
    exact ⟨hr, hg, by rw [hh, hloop]⟩
  · have hhub1eq : (push env1 memory hub).hub =
        (pushLoop memory SYNCABLE_FILES ⟨hub, []⟩).hub :=
      push_hub_eq env1 memory hub config1 pc1 h11 h12 h13
    have hnd1 : noLocalDiff memory (push env1 memory hub).hub SYNCABLE_FILES := by
      rw [hhub1eq]
      exact pushLoop_establishes_nodiff memory SYNCABLE_FILES syncable_files_nodup ⟨hub, []⟩
    have hloop2 : pushLoop memory SYNCABLE_FILES ⟨(push env1 memory hub).hub, []⟩ =
        ⟨(push env1 memory hub).hub, []⟩ :=
      pushLoop_nodiff memory SYNCABLE_FILES ⟨(push env1 memory hub).hub, []⟩ hnd1
    have hch2 : (pushLoop memory SYNCABLE_FILES ⟨(push env1 memory hub).hub, []⟩).changed = [] := by
      rw [hloop2]
    obtain ⟨hr, hg, hh⟩ := push_no_changes env2 memory (push env1 memory hub).hub
      config2 pc2 h21 h22 h23 hch2
    exact ⟨by rw [hr], by rw [hr], hg⟩

/-- C8 witness: first push sends `STATE.md` into an empty hub folder; the
second push finds nothing to send and attempts no commit. -/
theorem C8_witness :
    (noLocalDiff [("STATE.md", "v1")] [] SYNCABLE_FILES →
      (push ⟨some sampleConfig, "proj", true, true, "", "T"⟩
        [("STATE.md", "v1")] []).result = ⟨true, [], "Няма промени за изпращане."⟩ ∧
      (push ⟨some sampleConfig, "proj", true, true, "", "T"⟩
        [("STATE.md", "v1")] []).gitCommitAttempted = false ∧
      (push ⟨some sampleConfig, "proj", true, true, "", "T"⟩
        [("STATE.md", "v1")] []).hub = []) ∧
    ((push ⟨some sampleConfig, "proj", true, true, "", "T"⟩ [("STATE.md", "v1")]
        (push ⟨some sampleConfig, "proj", true, true, "", "T"⟩
          [("STATE.md", "v1")] []).hub).result.filesChanged = [] ∧
     (push ⟨some sampleConfig, "proj", true, true, "", "T"⟩ [("STATE.md", "v1")]
        (push ⟨some sampleConfig, "proj", true, true, "", "T"⟩
          [("STATE.md", "v1")] []).hub).result.success = true ∧
     (push ⟨some sampleConfig, "proj", true, true, "", "T"⟩ [("STATE.md", "v1")]
        (push ⟨some sampleConfig, "proj", true, true, "", "T"⟩
          [("STATE.md", "v1")] []).hub).gitCommitAttempted = false) :=
  C8_push_idempotent ⟨some sampleConfig, "proj", true, true, "", "T"⟩
    ⟨some sampleConfig, "proj", true, true, "", "T"⟩
    [("STATE.md", "v1")] [] sampleConfig sampleProject sampleConfig sampleProject
    (by decide) (by decide) (by decide) (by decide) (by decide) (by decide)

/-! ## Claim C9 -/

/-- A trigger arriving less than the debounce window after
`lastAutoSyncTime` never fires. -/
theorem triggerAutoSync_debounced (f : String) (now : Nat) (s : MemorySyncState)
    (h : now - s.lastAutoSyncTime < AUTO_SYNC_DEBOUNCE_MS) :
    (triggerAutoSync f now s).1 = false := by
  unfold triggerAutoSync
  by_cases hc : SYNCABLE_FILES.contains f = true
  · rw [if_pos hc]
    unfold shouldAutoSync
    by_cases hE : (!s.autoSyncEnabled || !s.hasSyncManager) = true
    · rw [if_pos hE]
    · rw [if_neg hE, if_pos h]
  · rw [if_neg hc]

/-- A trigger that fires records its own timestamp as the new
`lastAutoSyncTime`. -/
theorem triggerAutoSync_fired_time (f : String) (now : Nat) (s : MemorySyncState)
    (h : (triggerAutoSync f now s).1 = true) :
    (triggerAutoSync f now s).2.lastAutoSyncTime = now := by
  by_cases hc : SYNCABLE_FILES.contains f = true
  · unfold triggerAutoSync at h ⊢
    rw [if_pos hc] at h ⊢
    unfold shouldAutoSync at h ⊢
    by_cases hE : (!s.autoSyncEnabled || !s.hasSyncManager) = true
    · rw [if_pos hE] at h; simp at h
    · rw [if_neg hE] at h ⊢
      by_cases hD : now - s.lastAutoSyncTime < AUTO_SYNC_DEBOUNCE_MS
      · rw [if_pos hD] at h; simp at h
      · rw [if_neg hD]
  · unfold triggerAutoSync at h; rw [if_neg hc] at h; simp at h

/-- C9 (confirmed): two auto-sync trigger calls on the same `Memory`
state separated by less than the 30-second debounce window fire at most
one silent push: if the first fires, the second is dropped inside
`shouldAutoSync` before the sync component is entered. -/
theorem C9_debounce (s : MemorySyncState) (t1 t2 : Nat) (f1 f2 : String)
    (hlt : t2 - t1 < AUTO_SYNC_DEBOUNCE_MS) :
    ((triggerAutoSync f1 t1 s).1 &&
     (triggerAutoSync f2 t2 (triggerAutoSync f1 t1 s).2).1) = false := by
  cases hb1 : (triggerAutoSync f1 t1 s).1 with
  | false => rw [Bool.false_and]
  | true =>
    rw [Bool.true_and]
    apply triggerAutoSync_debounced
    rw [triggerAutoSync_fired_time f1 t1 s hb1]
    exact hlt

/-- C9 witness: with auto-sync enabled and triggers 10 ms apart, the pair
fires at most once. -/
theorem C9_witness :
    ((triggerAutoSync "STATE.md" 100000 ⟨true, true, 0⟩).1 &&
     (triggerAutoSync "LOG.md" 100010
       (triggerAutoSync "STATE.md" 100000 ⟨true, true, 0⟩).2).1) = false :=
  C9_debounce ⟨true, true, 0⟩ 100000 100010 "STATE.md" "LOG.md" (by decide)

/-! ## Claim C10 -/

/-- C10 (confirmed): for every push, silent push, pull and silent pull
invocation, a filename outside the fixed eight-name syncable set is never
copied in either direction: its hub-folder content is untouched by both
push variants and its memory-directory content is untouched by both pull
variants, whatever the environment and directory contents. -/
theorem C10_only_syncable_copied (name : String) (hname : name ∉ SYNCABLE_FILES)
    (envP envAP : PushEnv) (envPl envAPl : PullEnv) (memory hub : FileMap) :
    alookup (push envP memory hub).hub name = alookup hub name ∧
    alookup (triggerAutoSyncPush envAP memory hub).hub name = alookup hub name ∧
    alookup (pull envPl memory hub).memory name = alookup memory name ∧
    alookup (triggerAutoSyncPull envAPl memory hub).memory name = alookup memory name := by
  have hpushloop : alookup (pushLoop memory SYNCABLE_FILES ⟨hub, []⟩).hub name =
      alookup hub name :=
    pushLoop_hub_preserved memory name SYNCABLE_FILES hname ⟨hub, []⟩
  have hpullloop : alookup (pullLoop hub SYNCABLE_FILES ⟨memory, none, []⟩).memory name =
      alookup memory name :=
    (pullLoop_preserved hub name SYNCABLE_FILES hname ⟨memory, none, []⟩).1
  have hautoloop : alookup (autoPullLoop hub SYNCABLE_FILES memory) name =
      alookup memory name := by
    rw [autoPullLoop_eq_pullLoop hub SYNCABLE_FILES ⟨memory, none, []⟩]
    exact hpullloop
  refine ⟨?_, ?_, ?_, ?_⟩
  · unfold push
    cases envP.config with
    | none => rfl
    | some config =>
      dsimp only
      cases projLookup config.projects envP.projectName with
      | none => rfl
      | some pc =>
        dsimp only
        by_cases h3 : envP.hubCloned = false
        · rw [if_pos h3]
        · rw [if_neg h3]
          by_cases hch : (pushLoop memory SYNCABLE_FILES ⟨hub, []⟩).changed = []
          · rw [if_pos hch]; exact hpushloop
          · rw [if_neg hch]
            by_cases hgp : envP.gitPushOk = true
            · rw [if_pos hgp]; exact hpushloop
            · rw [if_neg hgp]; exact hpushloop
  · unfold triggerAutoSyncPush
    cases envAP.config with
    | none => rfl
    | some config =>
      dsimp only
      by_cases ha : config.autoSync = false
      · rw [if_pos ha]
      · rw [if_neg ha]
        cases projLookup config.projects envAP.projectName with
        | none => rfl
        | some pc =>
          dsimp only
          by_cases hch : (pushLoop memory SYNCABLE_FILES ⟨hub, []⟩).changed = []
          · rw [if_pos hch]; exact hpushloop
          · rw [if_neg hch]
            by_cases hgp : envAP.gitPushOk = true
            · rw [if_pos hgp]; exact hpushloop
            · rw [if_neg hgp]; exact hpushloop
  · unfold pull
    cases envPl.config with
    | none => rfl
    | some config =>
      dsimp only
      cases projLookup config.projects envPl.projectName with
      | none => rfl
      | some pc =>
        dsimp only
        by_cases h3 : envPl.hubCloned = false
        · rw [if_pos h3]
        · rw [if_neg h3]
          by_cases h4 : envPl.gitPullOk = false
          · rw [if_pos h4]
          · rw [if_neg h4]
            by_cases h5 : envPl.hubFolderExists = false
            · rw [if_pos h5]
            · rw [if_neg h5]
              by_cases hch : (pullLoop hub SYNCABLE_FILES ⟨memory, none, []⟩).changed = []
              · rw [if_pos hch]; exact hpullloop
              · rw [if_neg hch]; exact hpullloop
  · unfold triggerAutoSyncPull
    cases envAPl.config with
    | none => rfl
    | some config =>
      dsimp only
      by_cases ha : config.autoSync = false
      · rw [if_pos ha]
      · rw [if_neg ha]
        cases projLookup config.projects envAPl.projectName with
        | none => rfl
        | some pc =>
          dsimp only
          by_cases h5 : envAPl.hubFolderExists = false
          · rw [if_pos h5]
          · rw [if_neg h5]; exact hautoloop

/-- C10 witness: at a concrete non-syncable filename `"secret.txt"`
present in both directories, all four operations leave it untouched. -/
theorem C10_witness :
    alookup (push ⟨some sampleConfig, "proj", true, true, "", "T"⟩
        [("secret.txt", "s1")] [("secret.txt", "s2")]).hub "secret.txt" =
      alookup [("secret.txt", "s2")] "secret.txt" ∧
    alookup (triggerAutoSyncPush ⟨some sampleConfig, "proj", true, true, "", "T"⟩
        [("secret.txt", "s1")] [("secret.txt", "s2")]).hub "secret.txt" =
      alookup [("secret.txt", "s2")] "secret.txt" ∧
    alookup (pull ⟨some sampleConfig, "proj", true, true, "", true, "T"⟩
        [("secret.txt", "s1")] [("secret.txt", "s2")]).memory "secret.txt" =
      alookup [("secret.txt", "s1")] "secret.txt" ∧
    alookup (triggerAutoSyncPull ⟨some sampleConfig, "proj", true, true, "", true, "T"⟩
        [("secret.txt", "s1")] [("secret.txt", "s2")]).memory "secret.txt" =
      alookup [("secret.txt", "s1")] "secret.txt" :=
  C10_only_syncable_copied "secret.txt" (by decide)
    ⟨some sampleConfig, "proj", true, true, "", "T"⟩
    ⟨some sampleConfig, "proj", true, true, "", "T"⟩
    ⟨some sampleConfig, "proj", true, true, "", true, "T"⟩
    ⟨some sampleConfig, "proj", true, true, "", true, "T"⟩
    [("secret.txt", "s1")] [("secret.txt", "s2")]

end SvetlioSync
